import Mathlib

/-!
Verification of the page-selector parser and per-page text policy of
`scripts/pdf_reader_pipeline.py`.

Strings are modelled as `List Char`; Python `int` is `Int`; fallible code
returns `Except (List Char)` (the payload is the error message text).
Python's whitespace notion (`str.strip`, regex `\s`) is `Char.isWhitespace`,
and regex `\d` / `str.isdigit` is `Char.isDigit` (the ASCII fragment, which
is what every claim exercises).
-/

/-- Python `str.strip()`: drop leading and trailing whitespace. -/
def stripChars (l : List Char) : List Char :=
  ((l.dropWhile Char.isWhitespace).reverse.dropWhile Char.isWhitespace).reverse

/-- Python `str.lower()` (character-wise). -/
def lowerChars (l : List Char) : List Char :=
  l.map Char.toLower

/-- Python `str.isdigit()` / regex `\d+`: non-empty and all digits. -/
def isDigits (l : List Char) : Bool :=
  !l.isEmpty && l.all Char.isDigit

/-- Python `int(t)` on an all-digit string. -/
def digitsToNat (l : List Char) : Nat :=
  l.foldl (fun a c => a * 10 + (c.toNat - 48)) 0

/-- The `_DASHES` table: the seven Unicode dash/minus code points the source
normalizes to an ASCII hyphen. -/
def dashChars : List Char :=
  ['‐', '‑', '‒', '–', '—', '―', '−']

/-- Python `pages_arg.translate(_DASHES)`. -/
def translateDashes (l : List Char) : List Char :=
  l.map (fun c => if c ∈ dashChars then '-' else c)

/-- Python `str.split(",")`: split on every comma, keeping empty segments. -/
def splitComma : List Char → List (List Char)
  | [] => [[]]
  | c :: rest =>
    if c = ',' then [] :: splitComma rest
    else
      match splitComma rest with
      | [] => [[c]]
      | s :: ss => (c :: s) :: ss

/-- Python `range(a, b)` over `Int`. -/
def intRange (a b : Int) : List Int :=
  (List.range (b - a).toNat).map (fun (i : Nat) => a + (i : Int))

/-- `_SINGLE_RE.fullmatch`: `^\s*(last(?:-\d+)?|\d+|all)\s*$`.  The leading
and trailing `\s*` are modelled by stripping first. -/
def singleMatch (t0 : List Char) : Bool :=
  let t := stripChars t0
  t == "all".data || t == "last".data ||
    (t.take 5 == "last-".data && isDigits (t.drop 5)) || isDigits t

/-- A `_RANGE_RE` endpoint group: `last(?:-\d+)?|\d+`, matched exactly. -/
def endpointExact (t : List Char) : Bool :=
  t == "last".data || (t.take 5 == "last-".data && isDigits (t.drop 5)) || isDigits t

/-- The `\s*-\s*` separator of `_RANGE_RE`: consume whitespace, a hyphen,
then whitespace; return the remainder (the second-group candidate). -/
def afterSep (rest : List Char) : Option (List Char) :=
  match rest.dropWhile Char.isWhitespace with
  | '-' :: r2 => some (r2.dropWhile Char.isWhitespace)
  | _ => none

/-- Backtracking case of `_RANGE_RE` on a string starting with `last`: the
optional `(?:-\d+)?` of the first group matches nothing, so the first group
is the bare `last` and the separator must follow it. -/
def lastFallback (t : List Char) : Option (List Char × List Char) :=
  match afterSep (t.drop 4) with
  | some b => if endpointExact b then some ("last".data, b) else none
  | none => none

/-- `_RANGE_RE.fullmatch`: `^\s*(last(?:-\d+)?|\d+)\s*-\s*(last(?:-\d+)?|\d+)\s*$`,
returning the two captured groups.  Greedy matching: on a string starting
with `last-<digits>` the first group takes the digits (maximal run) and only
falls back to the bare `last` if the rest cannot complete the match; a
digit-led string takes the maximal digit run.  (A shorter digit run is never
viable: the next character would be a digit, which can neither start the
`\s*-\s*` separator nor be skipped.) -/
def rangeMatch (t0 : List Char) : Option (List Char × List Char) :=
  let t := stripChars t0
  if t.take 4 == "last".data then
    match t.drop 4 with
    | '-' :: r1 =>
      let ds := r1.takeWhile Char.isDigit
      if ds == ([] : List Char) then lastFallback t
      else
        match afterSep (r1.drop ds.length) with
        | some b => if endpointExact b then some ("last-".data ++ ds, b) else lastFallback t
        | none => lastFallback t
    | _ => lastFallback t
  else
    let ds := t.takeWhile Char.isDigit
    if ds == ([] : List Char) then none
    else
      match afterSep (t.drop ds.length) with
      | some b => if endpointExact b then some (ds, b) else none
      | none => none

/-- `_parse_one_token`: single token to 0-index page number; `-2` encodes
`all`; invalid tokens are errors.  (Under the `startswith("last-")` guard,
Python's `t.split("-", 1)[1]` is exactly `t[5:]`, since `l`, `a`, `s`, `t`
are not hyphens.) -/
def _parse_one_token (tok : List Char) (total_pages : Int) : Except (List Char) Int :=
  let t := lowerChars (stripChars tok)
  if t = "all".data then .ok (-2)
  else if t = "last".data then .ok (total_pages - 1)
  else if t.take 5 = "last-".data then
    let off_str := t.drop 5
    if isDigits off_str then
      let idx : Int := total_pages - 1 - (digitsToNat off_str : Int)
      if 0 ≤ idx ∧ idx < total_pages then .ok idx
      else .error ("Page out of range: ".data ++ tok)
    else .error ("Invalid last-offset: ".data ++ tok)
  else if isDigits t then
    let p : Int := (digitsToNat t : Int)
    if 1 ≤ p ∧ p ≤ total_pages then .ok (p - 1)
    else .error ("Page out of range: ".data ++ tok)
  else .error ("Invalid token: ".data ++ tok)

/-- `_parse_endpoint`: range endpoint to 1-index page number. -/
def _parse_endpoint (val : List Char) (total_pages : Int) : Except (List Char) Int :=
  let t := lowerChars (stripChars val)
  if t = "all".data ∨ t = "last".data then .ok total_pages
  else if t.take 5 = "last-".data then
    let off_str := t.drop 5
    if isDigits off_str then
      let res : Int := total_pages - (digitsToNat off_str : Int)
      if 1 ≤ res ∧ res ≤ total_pages then .ok res
      else .error ("Endpoint out of range: ".data ++ val)
    else .error ("Invalid last-offset: ".data ++ val)
  else if isDigits t then
    let res : Int := (digitsToNat t : Int)
    if 1 ≤ res ∧ res ≤ total_pages then .ok res
    else .error ("Endpoint out of range: ".data ++ val)
  else .error ("Invalid endpoint: ".data ++ val)

/-- The range-expansion step of `parse_pages_arg`: swap the 1-index
endpoints if out of order, then `range(a - 1, b)`. -/
def expandRange (a b : Int) : List Int :=
  if a > b then intRange (b - 1) a else intRange (a - 1) b

/-- Insert into a strictly-ascending list, skipping duplicates. -/
def insertSorted (x : Int) : List Int → List Int
  | [] => [x]
  | y :: ys =>
    if x < y then x :: y :: ys
    else if x = y then y :: ys
    else y :: insertSorted x ys

/-- Python `sorted(set(l))`: the strictly-ascending enumeration of the
elements of `l`. -/
def sortedDedup (l : List Int) : List Int :=
  l.foldr insertSorted []

/-- The per-segment loop of `parse_pages_arg`, carrying `wanted` and
`any_tok`. -/
def parseSegs (total_pages : Int) :
    List (List Char) → List Int → Bool → Except (List Char) (List Int × Bool)
  | [], wanted, any_tok => .ok (wanted, any_tok)
  | raw :: rest, wanted, any_tok =>
    let tok := stripChars raw
    if tok = [] then parseSegs total_pages rest wanted any_tok
    else
      let tok_l := lowerChars tok
      if singleMatch tok_l then
        match _parse_one_token tok total_pages with
        | .error e => .error e
        | .ok idx =>
          if idx = -2 then parseSegs total_pages rest (wanted ++ intRange 0 total_pages) true
          else parseSegs total_pages rest (wanted ++ [idx]) true
      else
        match rangeMatch tok_l with
        | some (a_str, b_str) =>
          match _parse_endpoint a_str total_pages with
          | .error e => .error e
          | .ok a =>
            match _parse_endpoint b_str total_pages with
            | .error e => .error e
            | .ok b => parseSegs total_pages rest (wanted ++ expandRange a b) true
        | none => .error ("Invalid token: ".data ++ tok)

/-- `parse_pages_arg(pages_arg, total_pages)`.  `.ok none` is Python's
`return None` (absent / falsy expression, meaning "all pages"); `.ok (some l)`
is a returned index list; `.error` is a raised `ValueError`. -/
def parse_pages_arg (pages_arg : List Char) (total_pages : Int) :
    Except (List Char) (Option (List Int)) :=
  if pages_arg = [] then .ok none
  else
    let raw_arg := translateDashes pages_arg
    match parseSegs total_pages (splitComma raw_arg) [] false with
    | .error e => .error e
    | .ok (wanted, any_tok) =>
      if any_tok = false then
        .error ("Invalid --pages spec (empty after parsing): ".data ++ pages_arg)
      else
        let res := sortedDedup wanted
        if res = [] then
          .error ("Invalid --pages spec (no valid pages): ".data ++ pages_arg)
        else .ok (some res)

/-- `PDFInspector._is_scanned`: fewer than 20 non-whitespace characters. -/
def _is_scanned (txt : List Char) : Bool :=
  (txt.filter (fun c => !c.isWhitespace)).length < 20

/-- The per-page text choice of `extract_full_text` (its last three lines),
with the recognition result made an explicit `Option`: `none` when the OCR
path was not taken, `some ocr_txt` when it produced `ocr_txt`. -/
def choose (direct : List Char) (fallback : Option (List Char)) : List Char :=
  match fallback with
  | none => direct
  | some fb =>
    if (stripChars fb).length > (stripChars direct).length then fb else direct

/-- Digit character for a value below 10; used only to state claims that
mention `str(P)`. -/
def digitChar (n : Nat) : Char :=
  (['0', '1', '2', '3', '4', '5', '6', '7', '8', '9']).getD n '0'

/-- Decimal digit string of `n` (Python `str(n)`); used only to state claims
that mention `str(P)`. -/
def natToDigits (n : Nat) : List Char :=
  if _h : n < 10 then [digitChar n]
  else natToDigits (n / 10) ++ [digitChar (n % 10)]
  decreasing_by exact Nat.div_lt_self (by omega) (by omega)

example : parse_pages_arg "1-2,last-1,last".data 10 = .ok (some [0, 1, 8, 9]) := by rfl
example : parse_pages_arg "".data 7 = .ok none := by rfl
example : parse_pages_arg "last-2-last".data 10 = .ok (some [7, 8, 9]) := by rfl
example : parse_pages_arg "5-2".data 10 = .ok (some [1, 2, 3, 4]) := by rfl
example : parse_pages_arg "1-all".data 10 = .error ("Invalid token: 1-all".data) := by rfl
example : parse_pages_arg "all".data 3 = .ok (some [0, 1, 2]) := by rfl
example : parse_pages_arg "1-".data 3 = .error ("Invalid token: 1-".data) := by rfl
example : _is_scanned (List.replicate 19 'a') = true := by rfl
example : _is_scanned (List.replicate 20 'a') = false := by rfl

/-! ### Ordered-list infrastructure -/

theorem mem_intRange {x a b : Int} : x ∈ intRange a b ↔ a ≤ x ∧ x < b := by
  unfold intRange
  simp only [List.mem_map, List.mem_range]
  constructor
  · rintro ⟨i, hi, rfl⟩; omega
  · rintro ⟨h1, h2⟩
    exact ⟨(x - a).toNat, by omega, by omega⟩

theorem intRange_ne_nil {a b : Int} (h : a < b) : intRange a b ≠ [] := by
  intro hc
  have hm : a ∈ intRange a b := mem_intRange.mpr ⟨le_refl a, h⟩
  rw [hc] at hm
  exact absurd hm (List.not_mem_nil a)

theorem chain'_intRange (a b : Int) : List.Chain' (· < ·) (intRange a b) := by
  apply List.Pairwise.chain'
  exact (List.pairwise_lt_range _).map _ (fun i j h => by omega)

theorem mem_insertSorted {y x : Int} {l : List Int} :
    y ∈ insertSorted x l ↔ y = x ∨ y ∈ l := by
  induction l with
  | nil => simp [insertSorted]
  | cons z zs ih =>
    simp only [insertSorted]
    split_ifs with h1 h2
    · simp [List.mem_cons]
    · subst h2; simp [List.mem_cons]
    · simp only [List.mem_cons, ih]; tauto

theorem insertSorted_head_cases (x : Int) (l : List Int) :
    (insertSorted x l).head? = some x ∨ (insertSorted x l).head? = l.head? := by
  cases l with
  | nil => left; rfl
  | cons z zs =>
    simp only [insertSorted]
    split_ifs with h1 h2
    · left; rfl
    · right; rfl
    · right; rfl

theorem chain'_insertSorted {x : Int} {l : List Int}
    (h : List.Chain' (· < ·) l) : List.Chain' (· < ·) (insertSorted x l) := by
  induction l with
  | nil => simp [insertSorted]
  | cons z zs ih =>
    simp only [insertSorted]
    split_ifs with h1 h2
    · exact List.chain'_cons.mpr ⟨h1, h⟩
    · exact h
    · rw [List.chain'_cons']
      refine ⟨?_, ih h.tail⟩
      intro y hy
      rcases insertSorted_head_cases x zs with hc | hc
      · rw [hc] at hy
        simp only [Option.mem_def, Option.some.injEq] at hy
        subst hy; omega
      · rw [hc] at hy
        exact (List.chain'_cons'.mp h).1 y hy

theorem chain'_sortedDedup (l : List Int) : List.Chain' (· < ·) (sortedDedup l) := by
  induction l with
  | nil => simp [sortedDedup]
  | cons x xs ih => exact chain'_insertSorted ih

theorem mem_sortedDedup {y : Int} {l : List Int} : y ∈ sortedDedup l ↔ y ∈ l := by
  induction l with
  | nil => simp [sortedDedup]
  | cons x xs ih =>
    show y ∈ insertSorted x (sortedDedup xs) ↔ _
    rw [mem_insertSorted, ih]
    simp [List.mem_cons]

theorem sortedDedup_eq_self {l : List Int}
    (h : List.Chain' (· < ·) l) : sortedDedup l = l := by
  induction l with
  | nil => rfl
  | cons x xs ih =>
    show insertSorted x (sortedDedup xs) = x :: xs
    rw [ih h.tail]
    cases xs with
    | nil => rfl
    | cons z zs =>
      have hxz : x < z := (List.chain'_cons.mp h).1
      simp [insertSorted, hxz]

theorem sortedDedup_ne_nil {l : List Int} (h : l ≠ []) : sortedDedup l ≠ [] := by
  cases l with
  | nil => exact absurd rfl h
  | cons x xs =>
    intro hc
    have hm : x ∈ sortedDedup (x :: xs) := mem_sortedDedup.mpr (List.mem_cons_self x xs)
    rw [hc] at hm
    exact absurd hm (List.not_mem_nil x)

/-! ### Bounds of the token and endpoint parsers -/

theorem parse_one_token_bounds {tok : List Char} {P idx : Int} (hP : 1 ≤ P)
    (h : _parse_one_token tok P = .ok idx) : idx = -2 ∨ (0 ≤ idx ∧ idx < P) := by
  simp only [_parse_one_token] at h
  split_ifs at h <;>
    first
      | exact Except.noConfusion h
      | (injection h with h; omega)

theorem parse_endpoint_bounds {val : List Char} {P r : Int} (hP : 1 ≤ P)
    (h : _parse_endpoint val P = .ok r) : 1 ≤ r ∧ r ≤ P := by
  simp only [_parse_endpoint] at h
  split_ifs at h <;>
    first
      | exact Except.noConfusion h
      | (injection h with h; omega)

theorem mem_expandRange_bounds {x a b P : Int} (h : x ∈ expandRange a b)
    (ha1 : 1 ≤ a) (ha2 : a ≤ P) (hb1 : 1 ≤ b) (hb2 : b ≤ P) :
    0 ≤ x ∧ x < P := by
  unfold expandRange at h
  split_ifs at h <;> rw [mem_intRange] at h <;> omega

theorem expandRange_ne_nil (a b : Int) : expandRange a b ≠ [] := by
  unfold expandRange
  split_ifs with h1 <;> apply intRange_ne_nil <;> omega

theorem expandRange_comm (a b : Int) : expandRange a b = expandRange b a := by
  unfold expandRange
  split_ifs with h1 h2 h3
  · exact absurd h2 (by omega)
  · rfl
  · rfl
  · have hab : a = b := by omega
    subst hab; rfl

/-! ### The segment loop preserves index bounds -/

theorem parseSegs_bounds {P : Int} (hP : 1 ≤ P) :
    ∀ (segs : List (List Char)) (wanted : List Int) (anyt : Bool)
      (w' : List Int) (t' : Bool),
      (∀ x ∈ wanted, 0 ≤ x ∧ x < P) →
      parseSegs P segs wanted anyt = .ok (w', t') →
      ∀ x ∈ w', 0 ≤ x ∧ x < P := by
  intro segs
  induction segs with
  | nil =>
    intro wanted anyt w' t' hw h
    simp only [parseSegs, Except.ok.injEq, Prod.mk.injEq] at h
    rw [← h.1]
    exact hw
  | cons raw rest ih =>
    intro wanted anyt w' t' hw h
    simp only [parseSegs] at h
    split at h
    · exact ih _ _ _ _ hw h
    · split at h
      · -- single-token path
        split at h
        · exact Except.noConfusion h
        · rename_i idx heq
          split at h
          · -- `all`: extend with range(total_pages)
            refine ih _ _ _ _ ?_ h
            intro x hx
            rcases List.mem_append.mp hx with hx | hx
            · exact hw x hx
            · rw [mem_intRange] at hx; omega
          · rename_i hne2
            refine ih _ _ _ _ ?_ h
            intro x hx
            rcases List.mem_append.mp hx with hx | hx
            · exact hw x hx
            · rw [List.mem_singleton] at hx
              subst hx
              rcases parse_one_token_bounds hP heq with h2 | h2
              · exact absurd h2 hne2
              · exact h2
      · -- range path
        split at h
        · rename_i a_str b_str hrm
          split at h
          · exact Except.noConfusion h
          · rename_i a heqa
            split at h
            · exact Except.noConfusion h
            · rename_i b heqb
              refine ih _ _ _ _ ?_ h
              intro x hx
              rcases List.mem_append.mp hx with hx | hx
              · exact hw x hx
              · have hba := parse_endpoint_bounds hP heqa
                have hbb := parse_endpoint_bounds hP heqb
                exact mem_expandRange_bounds hx hba.1 hba.2 hbb.1 hbb.2
        · exact Except.noConfusion h

/-! ### C1 -/

/-- C1: for every expression and every `total_pages ≥ 1`, whenever
`parse_pages_arg` returns a list (rather than absent or an error), that list
is non-empty, strictly ascending (hence duplicate-free), and every element
lies in `[0, total_pages - 1]`; and
`resolve("1-2,last-1,last", 10) = [0, 1, 8, 9]`. -/
theorem c1_resolved_pages_invariant :
    (∀ (expr : List Char) (P : Int) (l : List Int), 1 ≤ P →
        parse_pages_arg expr P = .ok (some l) →
        l ≠ [] ∧ List.Chain' (· < ·) l ∧ ∀ x ∈ l, 0 ≤ x ∧ x < P) ∧
    parse_pages_arg "1-2,last-1,last".data 10 = .ok (some [0, 1, 8, 9]) := by
  constructor
  · intro expr P l hP h
    simp only [parse_pages_arg] at h
    split at h
    · simp at h
    · split at h
      · exact Except.noConfusion h
      · rename_i wanted any_tok heq
        split at h
        · exact Except.noConfusion h
        · split at h
          · exact Except.noConfusion h
          · rename_i hne
            simp only [Except.ok.injEq, Option.some.injEq] at h
            subst h
            refine ⟨hne, chain'_sortedDedup _, ?_⟩
            intro x hx
            rw [mem_sortedDedup] at hx
            exact parseSegs_bounds hP _ [] false _ _ (by simp) heq x hx
  · rfl

/-- Witness for C1 at the concrete input `resolve("3", 5) = [2]`. -/
theorem c1_resolved_pages_invariant_witness :
    ([2] : List Int) ≠ [] ∧ List.Chain' (· < ·) ([2] : List Int) ∧
      ∀ x ∈ ([2] : List Int), 0 ≤ x ∧ x < 5 :=
  c1_resolved_pages_invariant.1 "3".data 5 [2] (by decide) (by rfl)

/-! ### Digit strings and invariance of the pre-processing stages -/

theorem data_all : "all".data = ['a', 'l', 'l'] := rfl

theorem data_last : "last".data = ['l', 'a', 's', 't'] := rfl

theorem data_lastDash : "last-".data = ['l', 'a', 's', 't', '-'] := rfl

/-- The ten digit characters. -/
def digitCharList : List Char := ['0', '1', '2', '3', '4', '5', '6', '7', '8', '9']

theorem digitChar_mem {k : Nat} (h : k < 10) : digitChar k ∈ digitCharList := by
  interval_cases k <;> decide

theorem digitCharList_facts {c : Char} (h : c ∈ digitCharList) :
    c.isDigit = true ∧ c.isWhitespace = false ∧ c.toLower = c ∧
      c ≠ ',' ∧ c ∉ dashChars := by
  fin_cases h <;> exact (by decide)

theorem natToDigits_mem {n : Nat} : ∀ c ∈ natToDigits n, c ∈ digitCharList := by
  induction n using Nat.strong_induction_on with
  | _ n ih =>
    rw [natToDigits]
    split
    · intro c hc
      rw [List.mem_singleton] at hc
      subst hc
      exact digitChar_mem (by omega)
    · intro c hc
      rcases List.mem_append.mp hc with hc | hc
      · exact ih (n / 10) (Nat.div_lt_self (by omega) (by omega)) c hc
      · rw [List.mem_singleton] at hc
        subst hc
        exact digitChar_mem (Nat.mod_lt _ (by omega))

theorem natToDigits_ne_nil (n : Nat) : natToDigits n ≠ [] := by
  rw [natToDigits]
  split
  · simp
  · simp

theorem dropWhile_eq_self_of_all {p : Char → Bool} {l : List Char}
    (h : ∀ c ∈ l, p c = false) : l.dropWhile p = l := by
  cases l with
  | nil => rfl
  | cons c cs =>
    rw [List.dropWhile_cons, h c (List.mem_cons_self c cs)]
    simp

theorem stripChars_eq_self {l : List Char} (h : ∀ c ∈ l, c.isWhitespace = false) :
    stripChars l = l := by
  unfold stripChars
  rw [dropWhile_eq_self_of_all h,
      dropWhile_eq_self_of_all (fun c hc => h c (List.mem_reverse.mp hc)),
      List.reverse_reverse]

theorem lowerChars_eq_self {l : List Char} (h : ∀ c ∈ l, c.toLower = c) :
    lowerChars l = l := by
  induction l with
  | nil => rfl
  | cons c cs ih =>
    show c.toLower :: lowerChars cs = c :: cs
    rw [h c (List.mem_cons_self c cs),
        ih (fun d hd => h d (List.mem_cons_of_mem c hd))]

theorem translateDashes_eq_self {l : List Char} (h : ∀ c ∈ l, c ∉ dashChars) :
    translateDashes l = l := by
  induction l with
  | nil => rfl
  | cons c cs ih =>
    show (if c ∈ dashChars then '-' else c) :: translateDashes cs = c :: cs
    rw [if_neg (h c (List.mem_cons_self c cs)),
        ih (fun d hd => h d (List.mem_cons_of_mem c hd))]

theorem splitComma_eq_single {l : List Char} (h : ∀ c ∈ l, c ≠ ',') :
    splitComma l = [l] := by
  induction l with
  | nil => rfl
  | cons c cs ih =>
    show (if c = ',' then _ else _) = _
    rw [if_neg (h c (List.mem_cons_self c cs)),
        ih (fun d hd => h d (List.mem_cons_of_mem c hd))]

theorem isDigits_of_all {l : List Char} (hne : l ≠ [])
    (h : ∀ c ∈ l, c.isDigit = true) : isDigits l = true := by
  unfold isDigits
  rw [Bool.and_eq_true, List.all_eq_true]
  constructor
  · cases l with
    | nil => exact absurd rfl hne
    | cons c cs => rfl
  · exact h

theorem digitsToNat_append (l : List Char) (c : Char) :
    digitsToNat (l ++ [c]) = digitsToNat l * 10 + (c.toNat - 48) := by
  unfold digitsToNat
  rw [List.foldl_append]
  rfl

theorem digitChar_val {k : Nat} (h : k < 10) : (digitChar k).toNat - 48 = k := by
  interval_cases k <;> decide

theorem digitsToNat_natToDigits (n : Nat) : digitsToNat (natToDigits n) = n := by
  induction n using Nat.strong_induction_on with
  | _ n ih =>
    rw [natToDigits]
    split
    · rename_i h
      show 0 * 10 + ((digitChar n).toNat - 48) = n
      rw [digitChar_val h]
      omega
    · rename_i h
      rw [digitsToNat_append, ih (n / 10) (Nat.div_lt_self (by omega) (by omega)),
          digitChar_val (Nat.mod_lt _ (by omega))]
      omega

theorem natToDigits_facts (n : Nat) :
    ∀ c ∈ natToDigits n, c.isDigit = true ∧ c.isWhitespace = false ∧
      c.toLower = c ∧ c ≠ ',' ∧ c ∉ dashChars :=
  fun c hc => digitCharList_facts (natToDigits_mem c hc)

theorem natToDigits_side (n : Nat) :
    stripChars (natToDigits n) = natToDigits n ∧
    lowerChars (natToDigits n) = natToDigits n ∧
    translateDashes (natToDigits n) = natToDigits n ∧
    splitComma (natToDigits n) = [natToDigits n] ∧
    isDigits (natToDigits n) = true := by
  have hf := natToDigits_facts n
  exact ⟨stripChars_eq_self (fun c hc => (hf c hc).2.1),
         lowerChars_eq_self (fun c hc => (hf c hc).2.2.1),
         translateDashes_eq_self (fun c hc => (hf c hc).2.2.2.2),
         splitComma_eq_single (fun c hc => (hf c hc).2.2.2.1),
         isDigits_of_all (natToDigits_ne_nil n) (fun c hc => (hf c hc).1)⟩

theorem allDigit_ne_all {l : List Char} (h : ∀ c ∈ l, c.isDigit = true) :
    l ≠ "all".data := by
  intro he
  have h1 : ('a' : Char).isDigit = true :=
    h 'a' (by rw [he, data_all]; exact List.mem_cons_self _ _)
  exact absurd h1 (by decide)

theorem allDigit_ne_last {l : List Char} (h : ∀ c ∈ l, c.isDigit = true) :
    l ≠ "last".data := by
  intro he
  have h1 : ('l' : Char).isDigit = true :=
    h 'l' (by rw [he, data_last]; exact List.mem_cons_self _ _)
  exact absurd h1 (by decide)

theorem allDigit_take5_ne {l : List Char} (h : ∀ c ∈ l, c.isDigit = true) :
    l.take 5 ≠ "last-".data := by
  intro he
  have hl : 'l' ∈ l :=
    List.mem_of_mem_take (by rw [he, data_lastDash]; exact List.mem_cons_self _ _)
  exact absurd (h 'l' hl) (by decide)

theorem lastDash_append_ne_all (ds : List Char) : "last-".data ++ ds ≠ "all".data := by
  rw [data_all, data_lastDash]
  intro he
  injection he with h1 _
  exact absurd h1 (by decide)

theorem lastDash_append_ne_last (ds : List Char) : "last-".data ++ ds ≠ "last".data := by
  rw [data_last, data_lastDash]
  intro he
  simp at he

theorem lastDash_append_take5 (ds : List Char) :
    ("last-".data ++ ds).take 5 = "last-".data := by
  have h5 : ("last-".data).length = 5 := rfl
  conv_lhs => rw [← h5]
  exact List.take_left _ _

theorem lastDash_append_drop5 (ds : List Char) :
    ("last-".data ++ ds).drop 5 = ds := by
  have h5 : ("last-".data).length = 5 := rfl
  conv_lhs => rw [← h5]
  exact List.drop_left _ _

theorem lastDash_side (n : Nat) :
    stripChars ("last-".data ++ natToDigits n) = "last-".data ++ natToDigits n ∧
    lowerChars ("last-".data ++ natToDigits n) = "last-".data ++ natToDigits n ∧
    translateDashes ("last-".data ++ natToDigits n) = "last-".data ++ natToDigits n ∧
    splitComma ("last-".data ++ natToDigits n) = ["last-".data ++ natToDigits n] := by
  have hf := natToDigits_facts n
  have hpre : ∀ c ∈ "last-".data,
      c.isWhitespace = false ∧ c.toLower = c ∧ c ≠ ',' ∧ c ∉ dashChars := by decide
  refine ⟨stripChars_eq_self ?_, lowerChars_eq_self ?_,
          translateDashes_eq_self ?_, splitComma_eq_single ?_⟩ <;>
    intro c hc <;> rcases List.mem_append.mp hc with hc | hc
  · exact (hpre c hc).1
  · exact (hf c hc).2.1
  · exact (hpre c hc).2.1
  · exact (hf c hc).2.2.1
  · exact (hpre c hc).2.2.2
  · exact (hf c hc).2.2.2.2
  · exact (hpre c hc).2.2.1
  · exact (hf c hc).2.2.2.1

/-! ### Evaluating the token parsers on parameterized tokens -/

theorem parse_one_token_digits (n : Nat) (P : Int) :
    _parse_one_token (natToDigits n) P =
      if 1 ≤ (n : Int) ∧ (n : Int) ≤ P then .ok ((n : Int) - 1)
      else .error ("Page out of range: ".data ++ natToDigits n) := by
  obtain ⟨hs, hl, _, _, hdg⟩ := natToDigits_side n
  have hdig : ∀ c ∈ natToDigits n, c.isDigit = true :=
    fun c hc => (natToDigits_facts n c hc).1
  simp only [_parse_one_token, hs, hl]
  rw [if_neg (allDigit_ne_all hdig), if_neg (allDigit_ne_last hdig),
      if_neg (allDigit_take5_ne hdig)]
  simp only [hdg, if_true, digitsToNat_natToDigits]

theorem parse_one_token_lastOff (n : Nat) (P : Int) :
    _parse_one_token ("last-".data ++ natToDigits n) P =
      if 0 ≤ P - 1 - (n : Int) ∧ P - 1 - (n : Int) < P then .ok (P - 1 - (n : Int))
      else .error ("Page out of range: ".data ++ ("last-".data ++ natToDigits n)) := by
  obtain ⟨hs, hl, _, _⟩ := lastDash_side n
  simp only [_parse_one_token, hs, hl]
  rw [if_neg (lastDash_append_ne_all _), if_neg (lastDash_append_ne_last _),
      if_pos (lastDash_append_take5 _)]
  have hd5 : List.drop 5 (['l', 'a', 's', 't', '-'] ++ natToDigits n) = natToDigits n :=
    lastDash_append_drop5 _
  rw [hd5, (natToDigits_side n).2.2.2.2, digitsToNat_natToDigits]
  rfl

theorem parse_endpoint_digits (n : Nat) (P : Int) :
    _parse_endpoint (natToDigits n) P =
      if 1 ≤ (n : Int) ∧ (n : Int) ≤ P then .ok (n : Int)
      else .error ("Endpoint out of range: ".data ++ natToDigits n) := by
  obtain ⟨hs, hl, _, _, hdg⟩ := natToDigits_side n
  have hdig : ∀ c ∈ natToDigits n, c.isDigit = true :=
    fun c hc => (natToDigits_facts n c hc).1
  simp only [_parse_endpoint, hs, hl]
  rw [if_neg ?hne, if_neg (allDigit_take5_ne hdig)]
  case hne =>
    rintro (he | he)
    · exact allDigit_ne_all hdig he
    · exact allDigit_ne_last hdig he
  simp only [hdg, if_true, digitsToNat_natToDigits]

theorem parse_endpoint_lastOff (n : Nat) (P : Int) :
    _parse_endpoint ("last-".data ++ natToDigits n) P =
      if 1 ≤ P - (n : Int) ∧ P - (n : Int) ≤ P then .ok (P - (n : Int))
      else .error ("Endpoint out of range: ".data ++ ("last-".data ++ natToDigits n)) := by
  obtain ⟨hs, hl, _, _⟩ := lastDash_side n
  simp only [_parse_endpoint, hs, hl]
  rw [if_neg ?hne, if_pos (lastDash_append_take5 _)]
  case hne =>
    rintro (he | he)
    · exact lastDash_append_ne_all _ he
    · exact lastDash_append_ne_last _ he
  have hd5 : List.drop 5 (['l', 'a', 's', 't', '-'] ++ natToDigits n) = natToDigits n :=
    lastDash_append_drop5 _
  rw [hd5, (natToDigits_side n).2.2.2.2, digitsToNat_natToDigits]
  rfl

theorem parse_endpoint_last (P : Int) : _parse_endpoint "last".data P = .ok P := rfl

theorem parse_endpoint_all (P : Int) : _parse_endpoint "all".data P = .ok P := rfl

/-! ### Whole-expression evaluation for one-segment expressions -/

theorem chain'_expandRange (a b : Int) : List.Chain' (· < ·) (expandRange a b) := by
  unfold expandRange
  split_ifs <;> exact chain'_intRange _ _

theorem parse_single_ok {e : List Char} {P idx : Int}
    (hd : translateDashes e = e) (hc : splitComma e = [e]) (hs : stripChars e = e)
    (hl : lowerChars e = e) (hne : e ≠ []) (hsm : singleMatch e = true)
    (hp : _parse_one_token e P = .ok idx) (hidx : idx ≠ -2) :
    parse_pages_arg e P = .ok (some [idx]) := by
  simp [parse_pages_arg, parseSegs, sortedDedup, insertSorted,
    hne, hd, hc, hs, hl, hsm, hp, hidx]

theorem parse_single_all {e : List Char} {P : Int} (hP : 1 ≤ P)
    (hd : translateDashes e = e) (hc : splitComma e = [e]) (hs : stripChars e = e)
    (hl : lowerChars e = e) (hne : e ≠ []) (hsm : singleMatch e = true)
    (hp : _parse_one_token e P = .ok (-2)) :
    parse_pages_arg e P = .ok (some (intRange 0 P)) := by
  have h1 : sortedDedup (intRange 0 P) = intRange 0 P :=
    sortedDedup_eq_self (chain'_intRange 0 P)
  have h2 : intRange 0 P ≠ [] := intRange_ne_nil (by omega)
  simp [parse_pages_arg, parseSegs, hne, hd, hc, hs, hl, hsm, hp, h1, h2]

theorem parse_single_err {e msg : List Char} {P : Int}
    (hd : translateDashes e = e) (hc : splitComma e = [e]) (hs : stripChars e = e)
    (hl : lowerChars e = e) (hne : e ≠ []) (hsm : singleMatch e = true)
    (hp : _parse_one_token e P = .error msg) :
    parse_pages_arg e P = .error msg := by
  simp [parse_pages_arg, parseSegs, hne, hd, hc, hs, hl, hsm, hp]

theorem parse_range_ok {e A B : List Char} {P a b : Int}
    (hd : translateDashes e = e) (hc : splitComma e = [e]) (hs : stripChars e = e)
    (hl : lowerChars e = e) (hne : e ≠ []) (hsm : singleMatch e = false)
    (hrm : rangeMatch e = some (A, B))
    (ha : _parse_endpoint A P = .ok a) (hb : _parse_endpoint B P = .ok b) :
    parse_pages_arg e P = .ok (some (expandRange a b)) := by
  have h1 : sortedDedup (expandRange a b) = expandRange a b :=
    sortedDedup_eq_self (chain'_expandRange a b)
  have h2 := expandRange_ne_nil a b
  simp [parse_pages_arg, parseSegs, hne, hd, hc, hs, hl, hsm, hrm, ha, hb, h1, h2]

theorem singleMatch_of_isDigits {l : List Char} (hs : stripChars l = l)
    (h : isDigits l = true) : singleMatch l = true := by
  simp only [singleMatch, hs, h]
  simp

theorem natToDigits_lt10 {n : Nat} (h : n < 10) : natToDigits n = [digitChar n] := by
  rw [natToDigits, dif_pos h]

theorem singleMatch_lastDash (n : Nat) :
    singleMatch ("last-".data ++ natToDigits n) = true := by
  simp only [singleMatch]
  rw [(lastDash_side n).1, lastDash_append_take5, lastDash_append_drop5,
      (natToDigits_side n).2.2.2.2]
  simp

theorem parse_one_to_last_full {P : Int} (hP : 1 ≤ P) :
    parse_pages_arg "1-last".data P = .ok (some (intRange 0 P)) := by
  have ha : _parse_endpoint "1".data P = .ok 1 := by
    have h := parse_endpoint_digits 1 P
    rw [show natToDigits 1 = "1".data from by rw [natToDigits_lt10 (by omega)]; rfl] at h
    rw [h, if_pos (by constructor <;> omega)]
    norm_num
  have hrange : expandRange 1 P = intRange 0 P := by
    unfold expandRange
    rw [if_neg (by omega)]
    congr 1
  rw [@parse_range_ok "1-last".data "1".data "last".data P 1 P rfl rfl rfl rfl
        (by decide) rfl rfl ha (parse_endpoint_last P),
      hrange]

/-! ### C2 -/

/-- C2: for every `total_pages = P ≥ 1`, `resolve("all", P)` and
`resolve("1-last", P)` both return the full ascending list
`[0, 1, ..., P-1]` (here `intRange 0 P`, the model of `range(P)`). -/
theorem c2_all_and_one_to_last_full :
    ∀ P : Int, 1 ≤ P →
      parse_pages_arg "all".data P = .ok (some (intRange 0 P)) ∧
      parse_pages_arg "1-last".data P = .ok (some (intRange 0 P)) := by
  intro P hP
  exact ⟨parse_single_all hP rfl rfl rfl rfl (by decide) rfl rfl,
         parse_one_to_last_full hP⟩

/-- Witness for C2 at `P = 4`. -/
theorem c2_all_and_one_to_last_full_witness :
    parse_pages_arg "all".data 4 = .ok (some (intRange 0 4)) ∧
    parse_pages_arg "1-last".data 4 = .ok (some (intRange 0 4)) :=
  c2_all_and_one_to_last_full 4 (by decide)

/-! ### C3 -/

/-- C3: for every `P ≥ 1`, `resolve("last", P)`, `resolve(str(P), P)` and
`resolve("last-0", P)` all return the singleton `[P-1]`, and in general
`resolve("last-K", P) = [P-1-K]` whenever `0 ≤ K ≤ P-1`. -/
theorem c3_last_singletons :
    ∀ P : Int, 1 ≤ P →
      (parse_pages_arg "last".data P = .ok (some [P - 1]) ∧
       parse_pages_arg (natToDigits P.toNat) P = .ok (some [P - 1]) ∧
       parse_pages_arg "last-0".data P = .ok (some [P - 1])) ∧
      ∀ K : Nat, (K : Int) ≤ P - 1 →
        parse_pages_arg ("last-".data ++ natToDigits K) P =
          .ok (some [P - 1 - (K : Int)]) := by
  intro P hP
  refine ⟨⟨?_, ?_, ?_⟩, ?_⟩
  · exact parse_single_ok rfl rfl rfl rfl (by decide) rfl rfl (by omega)
  · obtain ⟨hs, hl, htr, hsp, hdg⟩ := natToDigits_side P.toNat
    have hp : _parse_one_token (natToDigits P.toNat) P = .ok (P - 1) := by
      rw [parse_one_token_digits, if_pos (by constructor <;> omega)]
      congr 1
      omega
    exact parse_single_ok htr hsp hs hl (natToDigits_ne_nil _)
      (singleMatch_of_isDigits hs hdg) hp (by omega)
  · have hp : _parse_one_token "last-0".data P = .ok (P - 1) := by
      have h := parse_one_token_lastOff 0 P
      rw [show natToDigits 0 = "0".data from by rw [natToDigits_lt10 (by omega)]; rfl] at h
      rw [show ("last-".data ++ "0".data) = "last-0".data from rfl] at h
      rw [h, if_pos (by constructor <;> omega)]
      congr 1
      omega
    exact parse_single_ok rfl rfl rfl rfl (by decide) rfl hp (by omega)
  · intro K hK
    obtain ⟨hs, hl, htr, hsp⟩ := lastDash_side K
    have hp : _parse_one_token ("last-".data ++ natToDigits K) P =
        .ok (P - 1 - (K : Int)) := by
      rw [parse_one_token_lastOff, if_pos (by constructor <;> omega)]
    exact parse_single_ok htr hsp hs hl (by simp [data_lastDash])
      (singleMatch_lastDash K) hp (by omega)

/-- Witness for C3 at `P = 7`, `K = 2`. -/
theorem c3_last_singletons_witness :
    parse_pages_arg "last".data 7 = .ok (some [6]) ∧
    parse_pages_arg ("last-".data ++ natToDigits 2) 7 =
      .ok (some [7 - 1 - ((2 : Nat) : Int)]) :=
  ⟨((c3_last_singletons 7 (by decide)).1).1,
   (c3_last_singletons 7 (by decide)).2 2 (by decide)⟩

/-! ### C4 -/

/-- C4: range resolution is order-independent in its endpoints (the swap
step of `parse_pages_arg` makes `expandRange` symmetric), and concretely
`resolve("2-5", P) = resolve("5-2", P) = [1, 2, 3, 4]` for every `P ≥ 5`. -/
theorem c4_range_order_independent :
    (∀ a b : Int, expandRange a b = expandRange b a) ∧
    ∀ P : Int, 5 ≤ P →
      parse_pages_arg "2-5".data P = .ok (some [1, 2, 3, 4]) ∧
      parse_pages_arg "5-2".data P = .ok (some [1, 2, 3, 4]) := by
  refine ⟨expandRange_comm, ?_⟩
  intro P hP
  have h2 : _parse_endpoint "2".data P = .ok 2 := by
    have h := parse_endpoint_digits 2 P
    rw [show natToDigits 2 = "2".data from by rw [natToDigits_lt10 (by omega)]; rfl] at h
    rw [h, if_pos (by constructor <;> omega)]
    norm_num
  have h5 : _parse_endpoint "5".data P = .ok 5 := by
    have h := parse_endpoint_digits 5 P
    rw [show natToDigits 5 = "5".data from by rw [natToDigits_lt10 (by omega)]; rfl] at h
    rw [h, if_pos (by constructor <;> omega)]
    norm_num
  constructor
  · rw [@parse_range_ok "2-5".data "2".data "5".data P 2 5 rfl rfl rfl rfl
          (by decide) rfl rfl h2 h5]
    rfl
  · rw [@parse_range_ok "5-2".data "5".data "2".data P 5 2 rfl rfl rfl rfl
          (by decide) rfl rfl h5 h2]
    rfl

/-- Witness for C4 at `P = 6`. -/
theorem c4_range_order_independent_witness :
    parse_pages_arg "2-5".data 6 = .ok (some [1, 2, 3, 4]) ∧
    parse_pages_arg "5-2".data 6 = .ok (some [1, 2, 3, 4]) :=
  c4_range_order_independent.2 6 (by decide)

/-! ### C5 -/

/-- C5: out-of-range single tokens are hard errors, never clamped:
for every `P ≥ 1`, `resolve("0", P)`, `resolve(str(P+1), P)` and
`resolve("last-" + str(P), P)` each raise. -/
theorem c5_out_of_range_hard_errors :
    ∀ P : Int, 1 ≤ P →
      (∃ m, parse_pages_arg "0".data P = .error m) ∧
      (∃ m, parse_pages_arg (natToDigits (P + 1).toNat) P = .error m) ∧
      (∃ m, parse_pages_arg ("last-".data ++ natToDigits P.toNat) P = .error m) := by
  intro P hP
  refine ⟨?_, ?_, ?_⟩
  · have h := parse_one_token_digits 0 P
    rw [show natToDigits 0 = "0".data from by rw [natToDigits_lt10 (by omega)]; rfl] at h
    rw [if_neg (show ¬(1 ≤ ((0 : Nat) : Int) ∧ ((0 : Nat) : Int) ≤ P) by omega)] at h
    exact ⟨_, parse_single_err rfl rfl rfl rfl (by decide) rfl h⟩
  · obtain ⟨hs, hl, htr, hsp, hdg⟩ := natToDigits_side (P + 1).toNat
    have h := parse_one_token_digits (P + 1).toNat P
    rw [if_neg (show ¬(1 ≤ (((P + 1).toNat : Nat) : Int) ∧
        (((P + 1).toNat : Nat) : Int) ≤ P) by omega)] at h
    exact ⟨_, parse_single_err htr hsp hs hl (natToDigits_ne_nil _)
      (singleMatch_of_isDigits hs hdg) h⟩
  · obtain ⟨hs, hl, htr, hsp⟩ := lastDash_side P.toNat
    have h := parse_one_token_lastOff P.toNat P
    rw [if_neg (show ¬(0 ≤ P - 1 - ((P.toNat : Nat) : Int) ∧
        P - 1 - ((P.toNat : Nat) : Int) < P) by omega)] at h
    exact ⟨_, parse_single_err htr hsp hs hl (by simp [data_lastDash])
      (singleMatch_lastDash _) h⟩

/-- Witness for C5 at `P = 3`. -/
theorem c5_out_of_range_hard_errors_witness :
    (∃ m, parse_pages_arg "0".data 3 = .error m) ∧
    (∃ m, parse_pages_arg (natToDigits ((3 : Int) + 1).toNat) 3 = .error m) ∧
    (∃ m, parse_pages_arg ("last-".data ++ natToDigits (3 : Int).toNat) 3 = .error m) :=
  c5_out_of_range_hard_errors 3 (by decide)

/-! ### C6 -/

/-- C6 counterexample: called directly on the empty string,
`parse_pages_arg` does not raise; it returns the absent marker (Python
`None`), exactly as on the absent-expression path. -/
theorem c6_empty_string_counterexample : parse_pages_arg "".data 3 = .ok none := rfl

/-- C6 (amended): malformed expressions raise and never yield a default
page set — `resolve("abc", P)` and `resolve("1-", P)` raise for every `P` —
but `resolve("", P)` returns the absent marker (`None`) even when
`parse_pages_arg` is called directly, because the function treats any
falsy (empty) expression as absent. -/
theorem c6_malformed_errors_amended :
    ∀ P : Int,
      parse_pages_arg "abc".data P = .error ("Invalid token: abc".data) ∧
      parse_pages_arg "1-".data P = .error ("Invalid token: 1-".data) ∧
      parse_pages_arg "".data P = .ok none :=
  fun _ => ⟨rfl, rfl, rfl⟩

/-! ### C7 -/

/-- C7 counterexample: `resolve("1-all", 2)` raises `InvalidToken` instead
of returning the full list `[0, 1]`: the range regex does not admit `all`
as an endpoint, so the token matches neither shape. -/
theorem c7_one_all_counterexample :
    parse_pages_arg "1-all".data 2 = .error ("Invalid token: 1-all".data) := rfl

/-- C7 (amended): the endpoint resolver `_parse_endpoint` does map both
`all` and `last` to the one-based page number `total_pages`, but `all`
never reaches it from a range token: `_RANGE_RE` only admits `last`,
`last-K`, or digits as endpoints, so `resolve("1-all", P)` raises
`InvalidToken` for every `P`, while `resolve("1-last", P)` returns
`[0, ..., P-1]`. -/
theorem c7_endpoint_all_last_amended :
    (∀ P : Int, _parse_endpoint "all".data P = .ok P ∧
        _parse_endpoint "last".data P = .ok P) ∧
    (∀ P : Int, parse_pages_arg "1-all".data P = .error ("Invalid token: 1-all".data)) ∧
    (∀ P : Int, 1 ≤ P → parse_pages_arg "1-last".data P = .ok (some (intRange 0 P))) :=
  ⟨fun _ => ⟨rfl, rfl⟩, fun _ => rfl, fun _ hP => parse_one_to_last_full hP⟩

/-- Witness for C7 (amended) at `P = 3`. -/
theorem c7_endpoint_all_last_amended_witness :
    parse_pages_arg "1-last".data 3 = .ok (some (intRange 0 3)) :=
  c7_endpoint_all_last_amended.2.2 3 (by decide)

/-! ### C8 -/

/-- C8: `needs_fallback` (`_is_scanned`) is true iff the number of
non-whitespace characters is strictly below 20, with the boundary at
exactly 19 (true) and 20 (false) non-whitespace characters. -/
theorem c8_scanned_gate_threshold :
    (∀ txt : List Char,
        _is_scanned txt = true ↔ txt.countP (fun c => !c.isWhitespace) < 20) ∧
    _is_scanned (List.replicate 19 'a') = true ∧
    _is_scanned (List.replicate 20 'a') = false ∧
    _is_scanned (' ' :: (List.replicate 19 'a' ++ ['\t'])) = true ∧
    _is_scanned (' ' :: (List.replicate 20 'a' ++ ['\t'])) = false := by
  refine ⟨?_, by decide, by decide, by decide, by decide⟩
  intro txt
  unfold _is_scanned
  rw [decide_eq_true_eq, List.countP_eq_length_filter]

/-! ### C9 -/

/-- C9: the per-page choice returns the recognition result iff it is
present and strictly longer after stripping; otherwise (absent fallback,
ties, shorter fallback) it returns the direct text. -/
theorem c9_choose_fallback_policy :
    (∀ d : List Char, choose d none = d) ∧
    (∀ d fb : List Char,
        (stripChars d).length < (stripChars fb).length → choose d (some fb) = fb) ∧
    (∀ d fb : List Char,
        (stripChars fb).length ≤ (stripChars d).length → choose d (some fb) = d) ∧
    choose [] (some "some recognized text".data) = "some recognized text".data ∧
    choose "short".data (some []) = "short".data ∧
    choose "abcde".data (some "vwxyz".data) = "abcde".data := by
  refine ⟨fun d => rfl, ?_, ?_, rfl, rfl, rfl⟩
  · intro d fb h
    show (if (stripChars fb).length > (stripChars d).length then fb else d) = fb
    rw [if_pos h]
  · intro d fb h
    show (if (stripChars fb).length > (stripChars d).length then fb else d) = d
    rw [if_neg (by omega)]

/-- Witness for C9. -/
theorem c9_choose_fallback_policy_witness :
    choose [] (some ['x', 'y', 'z']) = ['x', 'y', 'z'] ∧
    choose ['a', 'b'] (some ['c', 'd']) = ['a', 'b'] :=
  ⟨c9_choose_fallback_policy.2.1 [] ['x', 'y', 'z'] (by decide),
   c9_choose_fallback_policy.2.2.1 ['a', 'b'] ['c', 'd'] (by decide)⟩

/-! ### C10: the three-part token `last-K-last` -/

theorem takeWhile_digits_append_dash {ds rest : List Char}
    (hds : ∀ c ∈ ds, Char.isDigit c = true) :
    ((ds ++ '-' :: rest).takeWhile Char.isDigit) = ds := by
  induction ds with
  | nil =>
    show (('-' :: rest).takeWhile Char.isDigit) = []
    rw [List.takeWhile_cons, show Char.isDigit '-' = false from rfl]
    simp
  | cons c cs ih =>
    rw [List.cons_append, List.takeWhile_cons, hds c (List.mem_cons_self c cs)]
    simp only [if_true]
    rw [ih (fun d hd => hds d (List.mem_cons_of_mem c hd))]

theorem isDigits_lastDash_append (ds : List Char) :
    isDigits ("last-".data ++ ds) = false := by
  unfold isDigits
  have h : (("last-".data ++ ds).all Char.isDigit) = false := by
    rw [List.all_append, show ("last-".data).all Char.isDigit = false from rfl,
        Bool.false_and]
  rw [h, Bool.and_false]

theorem isDigits_digits_append_dash (ds rest : List Char) :
    isDigits (ds ++ '-' :: rest) = false := by
  unfold isDigits
  have h : ((ds ++ '-' :: rest).all Char.isDigit) = false := by
    rw [List.all_append, List.all_cons, show Char.isDigit '-' = false from rfl,
        Bool.false_and, Bool.and_false]
  rw [h, Bool.and_false]

theorem lastK_last_side (n : Nat) :
    stripChars ("last-".data ++ (natToDigits n ++ "-last".data)) =
      "last-".data ++ (natToDigits n ++ "-last".data) ∧
    lowerChars ("last-".data ++ (natToDigits n ++ "-last".data)) =
      "last-".data ++ (natToDigits n ++ "-last".data) ∧
    translateDashes ("last-".data ++ (natToDigits n ++ "-last".data)) =
      "last-".data ++ (natToDigits n ++ "-last".data) ∧
    splitComma ("last-".data ++ (natToDigits n ++ "-last".data)) =
      ["last-".data ++ (natToDigits n ++ "-last".data)] := by
  have hf := natToDigits_facts n
  have hpre : ∀ c ∈ "last-".data,
      c.isWhitespace = false ∧ c.toLower = c ∧ c ≠ ',' ∧ c ∉ dashChars := by decide
  have hsuf : ∀ c ∈ "-last".data,
      c.isWhitespace = false ∧ c.toLower = c ∧ c ≠ ',' ∧ c ∉ dashChars := by decide
  have hall : ∀ c ∈ "last-".data ++ (natToDigits n ++ "-last".data),
      c.isWhitespace = false ∧ c.toLower = c ∧ c ≠ ',' ∧ c ∉ dashChars := by
    intro c hc
    rcases List.mem_append.mp hc with hc | hc
    · exact hpre c hc
    · rcases List.mem_append.mp hc with hc | hc
      · exact ⟨(hf c hc).2.1, (hf c hc).2.2.1, (hf c hc).2.2.2.1, (hf c hc).2.2.2.2⟩
      · exact hsuf c hc
  exact ⟨stripChars_eq_self (fun c hc => (hall c hc).1),
         lowerChars_eq_self (fun c hc => (hall c hc).2.1),
         translateDashes_eq_self (fun c hc => (hall c hc).2.2.2),
         splitComma_eq_single (fun c hc => (hall c hc).2.2.1)⟩

theorem singleMatch_lastK_last (n : Nat) :
    singleMatch ("last-".data ++ (natToDigits n ++ "-last".data)) = false := by
  simp only [singleMatch]
  rw [(lastK_last_side n).1, lastDash_append_take5, lastDash_append_drop5]
  have h1 : (("last-".data ++ (natToDigits n ++ "-last".data)) == "all".data) = false :=
    beq_eq_false_iff_ne.mpr (lastDash_append_ne_all _)
  have h2 : (("last-".data ++ (natToDigits n ++ "-last".data)) == "last".data) = false :=
    beq_eq_false_iff_ne.mpr (lastDash_append_ne_last _)
  have h3 : isDigits (natToDigits n ++ "-last".data) = false :=
    isDigits_digits_append_dash (natToDigits n) "last".data
  have h4 : isDigits ("last-".data ++ (natToDigits n ++ "-last".data)) = false :=
    isDigits_lastDash_append _
  rw [h1, h2, h3, h4]
  simp

theorem rangeMatch_lastDash_digits_dashLast {ds : List Char} (hne : ds ≠ [])
    (hstrip : stripChars ("last-".data ++ (ds ++ "-last".data)) =
      "last-".data ++ (ds ++ "-last".data))
    (htw : ((ds ++ "-last".data).takeWhile Char.isDigit) = ds) :
    rangeMatch ("last-".data ++ (ds ++ "-last".data)) =
      some ("last-".data ++ ds, "last".data) := by
  simp only [rangeMatch, hstrip]
  rw [show (("last-".data ++ (ds ++ "-last".data)).take 4) = "last".data from rfl]
  rw [if_pos (show (("last".data == "last".data) = true) from rfl)]
  rw [show (("last-".data ++ (ds ++ "-last".data)).drop 4) =
        '-' :: (ds ++ "-last".data) from rfl]
  split
  · rename_i x r2 heq
    injection heq with hhd htl
    subst htl
    rw [htw]
    rw [if_neg (show ¬((ds == ([] : List Char)) = true) from by simp [hne])]
    rw [List.drop_left]
    rw [show afterSep "-last".data = some ("last".data) from rfl]
    split
    · rename_i b heq2
      injection heq2 with hb
      subst hb
      rw [if_pos (show (endpointExact "last".data = true) from rfl)]
    · rename_i heq2
      exact Option.noConfusion heq2
  · rename_i x hx
    exact (hx _ rfl).elim

/-- C10: the ambiguous token `last-K-last` is accepted, disambiguated
greedily as the range from endpoint `last-K` to endpoint `last`: for every
`P ≥ K+1`, `resolve("last-K-last", P) = [P-1-K, ..., P-1]`
(here `intRange (P-1-K) P`). -/
theorem c10_lastK_last_greedy_range :
    ∀ (K : Nat) (P : Int), (K : Int) + 1 ≤ P →
      parse_pages_arg ("last-".data ++ (natToDigits K ++ "-last".data)) P =
        .ok (some (intRange (P - 1 - (K : Int)) P)) := by
  intro K P hP
  obtain ⟨hs, hl, htr, hsp⟩ := lastK_last_side K
  have htw : ((natToDigits K ++ "-last".data).takeWhile Char.isDigit) = natToDigits K :=
    takeWhile_digits_append_dash (fun c hc => (natToDigits_facts K c hc).1)
  have hrm := rangeMatch_lastDash_digits_dashLast (natToDigits_ne_nil K) hs htw
  have ha : _parse_endpoint ("last-".data ++ natToDigits K) P = .ok (P - (K : Int)) := by
    rw [parse_endpoint_lastOff, if_pos (by constructor <;> omega)]
  have hrange : expandRange (P - (K : Int)) P = intRange (P - 1 - (K : Int)) P := by
    unfold expandRange
    rw [if_neg (by omega)]
    congr 1
    omega
  rw [@parse_range_ok ("last-".data ++ (natToDigits K ++ "-last".data))
        ("last-".data ++ natToDigits K) "last".data P (P - (K : Int)) P
        htr hsp hs hl (by simp [data_lastDash]) (singleMatch_lastK_last K) hrm ha
        (parse_endpoint_last P),
      hrange]

/-- Witness for C10 at `K = 2`, `P = 10`. -/
theorem c10_lastK_last_greedy_range_witness :
    parse_pages_arg ("last-".data ++ (natToDigits 2 ++ "-last".data)) 10 =
      .ok (some (intRange (10 - 1 - ((2 : Nat) : Int)) 10)) :=
  c10_lastK_last_greedy_range 2 10 (by decide)
